import Mathlib

/-!
Verification of the Armory SDK manager add-on (armory.py).

The add-on's core logic is a batch fetcher for 9 git repositories:
a capability probe (git_test), per-repository clone with
backup-and-restore semantics (git_clone, restore_repo), a process
spawner with a completion callback (run_proc), and a shared
(repos_done, repos_updated, repos_total) counter triple updated by a
nested callback (done) inside download_sdk.

We shallowly embed these functions.  Filesystem state is a map from
path strings to an optional directory content (a list of files, each
carrying a read-only flag and an abstract content tag).  Process
spawning is abstracted by its outcome; the Python regex used by the
probe is embedded as an executable backtracking matcher for that
exact pattern.
-/

/-- A file inside a directory: a read-only flag (stat attribute) and an
abstract content tag distinguishing files. -/
structure FileEnt where
  ro : Bool
  data : Nat
deriving DecidableEq, Repr

/-- Filesystem state: each path string either holds a directory with the
given files, or nothing.  `none` means `os.path.exists` is false. -/
def FS : Type := String → Option (List FileEnt)

/-- Model of `os.path.exists(path)`. -/
def pathExists (fs : FS) (path : String) : Bool :=
  (fs path).isSome

/-- Model of `os.rename(src, dst)`: the entry at `src` moves to `dst`. -/
def os_rename (fs : FS) (src dst : String) : FS :=
  fun q => if q = dst then fs src else if q = src then none else fs q

/-- Model of `shutil.rmtree(path, onerror=remove_readonly)` at the level of
the path map: the entry at `path` is removed.  That the removal succeeds
even on read-only files is proved separately from the file-level model
(`rmtree_files`). -/
def shutil_rmtree (fs : FS) (path : String) : FS :=
  fun q => if q = path then none else fs q

/-- Model of deleting one file (`os.unlink` as called by `shutil.rmtree`):
a read-only file raises a permission error. -/
def os_remove (f : FileEnt) : Except Unit Unit :=
  if f.ro then Except.error () else Except.ok ()

/-- Embeds `remove_readonly(func, path, excinfo)` (armory.py lines 179-181):
`os.chmod(path, stat.S_IWRITE)` clears the read-only flag, then `func(path)`
retries the deletion. -/
def remove_readonly (f : FileEnt) : Except Unit Unit :=
  os_remove ⟨false, f.data⟩

/-- File-level model of `shutil.rmtree`: delete the files one by one; on a
permission error, invoke the `onerror` handler when one is installed,
otherwise propagate the error. -/
def rmtree_files (onerror : Option (FileEnt → Except Unit Unit)) :
    List FileEnt → Except Unit Unit
  | [] => Except.ok ()
  | f :: rest =>
    match os_remove f with
    | Except.ok _ => rmtree_files onerror rest
    | Except.error e =>
      match onerror with
      | none => Except.error e
      | some h =>
        match h f with
        | Except.ok _ => rmtree_files onerror rest
        | Except.error e2 => Except.error e2

/-- Embeds the pre-clone filesystem steps of `git_clone(done, p, gitn, n,
recursive)` (armory.py lines 213-217): rename an existing target aside to
`_backup` when no backup exists yet, then delete whatever still sits at the
target. -/
def git_clone_prep (fs : FS) (p n : String) : FS :=
  let path := p ++ "/" ++ n
  let fs1 :=
    if pathExists fs path && !pathExists fs (path ++ "_backup") then
      os_rename fs path (path ++ "_backup")
    else fs
  if pathExists fs1 path then shutil_rmtree fs1 path else fs1

/-- Embeds the command list built by `git_clone` (armory.py lines 218-221). -/
def git_clone_cmd (gitn path : String) (recursive : Bool) : List String :=
  if recursive then
    ["git", "clone", "--recursive", "https://github.com/" ++ gitn, path,
     "--depth", "1", "--shallow-submodules", "--jobs", "4"]
  else
    ["git", "clone", "https://github.com/" ++ gitn, path, "--depth", "1"]

/-- Embeds `git_clone` followed by a successful clone process: the pre-clone
steps run, then the spawned `git clone` populates the target path with the
fetched content `cloneData`. -/
def git_clone_success (fs : FS) (p n : String) (cloneData : List FileEnt) : FS :=
  let path := p ++ "/" ++ n
  let fs1 := git_clone_prep fs p n
  fun q => if q = path then some cloneData else fs1 q

/-- Embeds `restore_repo(p, n)` (armory.py lines 235-239). -/
def restore_repo (fs : FS) (p n : String) : FS :=
  if pathExists fs (p ++ "/" ++ n ++ "_backup") then
    let fs1 :=
      if pathExists fs (p ++ "/" ++ n) then shutil_rmtree fs (p ++ "/" ++ n)
      else fs
    os_rename fs1 (p ++ "/" ++ n ++ "_backup") (p ++ "/" ++ n)
  else fs

/-- Embeds the body of `ArmAddonRestoreButton.execute` (armory.py lines
354-362): `restore_repo` applied in order to each local path. -/
def restore_all (fs : FS) (p : String) (names : List String) : FS :=
  names.foldl (fun acc n => restore_repo acc p n) fs

/-- Matches a literal character sequence at the head of the input; on
success returns the remaining input. -/
def matchLit : List Char → List Char → Option (List Char)
  | [], s => some s
  | _ :: _, [] => none
  | a :: l, c :: s => if a = c then matchLit l s else none

/-- Matches a literal, then hands the remaining input to the continuation. -/
def matchLitThen (l : List Char) (k : List Char → Bool) (s : List Char) : Bool :=
  match matchLit l s with
  | some t => k t
  | none => false

/-- Matches the regex metacharacter dot of Python re (any single character
except a newline), then continues. -/
def matchAnyThen (k : List Char → Bool) : List Char → Bool
  | [] => false
  | c :: t => decide (c ≠ '\n') && k t

/-- Backtracking matcher for `[0-9]+` followed by the continuation: consume
one digit, then either run the continuation or consume further digits. -/
def matchDigitsThen (k : List Char → Bool) : List Char → Bool
  | [] => false
  | c :: t => c.isDigit && (k t || matchDigitsThen k t)

/-- Embeds the truth value of
`re.match("git version [0-9]+.[0-9]+.[0-9]+", out)` exactly as written in
the source (armory.py line 231): the two separator dots are unescaped regex
metacharacters, so they match any character except a newline.  `re.match`
anchors at the start of the input and permits trailing input. -/
def gitVersionRegexMatch (s : List Char) : Bool :=
  matchLitThen "git version ".toList
    (matchDigitsThen (matchAnyThen (matchDigitsThen (matchAnyThen
      (matchDigitsThen (fun _ => true)))))) s

/-- Modelled from the claim's words, for comparison with the source regex:
the probe pattern read with literal dots between the digit groups. -/
def dottedVersionMatch (s : List Char) : Bool :=
  matchLitThen "git version ".toList
    (matchDigitsThen (matchLitThen ['.'] (matchDigitsThen (matchLitThen ['.']
      (matchDigitsThen (fun _ => true)))))) s

/-- Declarative reading of the source regex, used to characterize the
matcher: the output starts with "git version ", then a nonempty digit
group, any non-newline character, a nonempty digit group, any non-newline
character, a nonempty digit group, and arbitrary trailing characters. -/
def looseVersionShape (s : List Char) : Prop :=
  ∃ d1 c1 d2 c2 d3 rest,
    s = "git version ".toList ++ d1 ++ c1 :: d2 ++ c2 :: d3 ++ rest ∧
    d1 ≠ [] ∧ (∀ c ∈ d1, c.isDigit = true) ∧
    c1 ≠ '\n' ∧
    d2 ≠ [] ∧ (∀ c ∈ d2, c.isDigit = true) ∧
    c2 ≠ '\n' ∧
    d3 ≠ [] ∧ (∀ c ∈ d3, c.isDigit = true)

/-- Embeds `git_test()` (armory.py lines 223-234).  The probe outcome is
abstracted as `none` when `subprocess.Popen` or `communicate` raises (the
exception is caught and only printed) and `some output` with the decoded
combined stdout/stderr otherwise.  The function returns `True` only when
the spawn succeeded and the regex matched; every other path reaches the
final `return False`. -/
def git_test (probe : Option String) : Bool :=
  match probe with
  | none => false
  | some output => gitVersionRegexMatch output.toList

/-- Outcome of `subprocess.Popen(cmd)` inside `run_proc`: the spawn
succeeds and the process later exits with some code, or the constructor
raises an `OSError` with an errno, or it raises some other exception. -/
inductive SpawnResult where
  | ok (exitCode : Int)
  | osError (errno : Nat)
  | otherError
deriving DecidableEq, Repr

/-- Whether the spawn attempt raised an exception. -/
def SpawnResult.raises : SpawnResult → Bool
  | SpawnResult.ok _ => false
  | SpawnResult.osError _ => true
  | SpawnResult.otherError => true

/-- Observable outcome of one `run_proc` call: the arguments passed to the
`done` callback over the lifetime of the call (in order), and whether a
process handle was returned (`p` stays `None` when the spawn raised). -/
structure ProcResult where
  doneCalls : List Nat
  returnsProc : Bool
deriving DecidableEq, Repr

/-- Embeds `run_proc(cmd, done)` (armory.py lines 183-210).  Both `except`
arms catch the exception, call `done(1)` when a callback was supplied, and
print; the `else` arm starts a waiter thread that blocks in `p.wait()` and
then calls `done(0)` whatever the exit code of the process was.  The
function itself always returns normally. -/
def run_proc (doneProvided : Bool) (spawn : SpawnResult) : ProcResult :=
  match spawn with
  | SpawnResult.ok _ => ⟨if doneProvided then [0] else [], true⟩
  | SpawnResult.osError _ => ⟨if doneProvided then [1] else [], false⟩
  | SpawnResult.otherError => ⟨if doneProvided then [1] else [], false⟩

/-- The spawn outcomes of a batch of `run_proc` calls, one per repository;
each call is independent of its siblings. -/
def run_proc_batch (spawns : List SpawnResult) : List ProcResult :=
  spawns.map (run_proc true)

/-- The counter triple shared by the completion callbacks of one batch
(globals `repos_done` and `repos_updated` in armory.py). -/
structure BatchState where
  repos_done : Nat
  repos_updated : Nat
deriving DecidableEq, Repr

/-- The value of the global `repos_total` during a batch (armory.py line
320): `download_sdk` launches exactly 9 clones. -/
def repos_total : Nat := 9

/-- The two aggregate signals the `done` callback can emit: the success
print at line 329 and the error report at line 331. -/
inductive Signal where
  | allSucceeded
  | failed
deriving DecidableEq, Repr

/-- Embeds one invocation of the nested callback `done(error)` (armory.py
lines 321-331): increment `repos_done`, increment `repos_updated` when
`error == 0`, then emit the success signal when `repos_updated ==
repos_total`, else the failure signal when `repos_done == repos_total`,
else nothing. -/
def doneCb (total : Nat) (st : BatchState) (error : Nat) :
    BatchState × Option Signal :=
  let d := st.repos_done + 1
  let u := if error = 0 then st.repos_updated + 1 else st.repos_updated
  (⟨d, u⟩,
    if u = total then some Signal.allSucceeded
    else if d = total then some Signal.failed
    else none)

/-- Runs the `done` callback once per entry of `errors` (the error codes
delivered by the clone tasks, in completion order), starting from state
`st`; returns the final state and the signals emitted, in order. -/
def runFrom (total : Nat) (st : BatchState) :
    List Nat → BatchState × List Signal
  | [] => (st, [])
  | e :: rest =>
    let step := doneCb total st e
    let tail := runFrom total step.1 rest
    (tail.1, step.2.toList ++ tail.2)

/-- One whole batch: counters start at 0 as set by `download_sdk`
(armory.py lines 318-319), with `repos_total = 9`. -/
def runBatch (errors : List Nat) : BatchState × List Signal :=
  runFrom repos_total ⟨0, 0⟩ errors

/-- Number of successful callbacks among the delivered error codes. -/
def countZeros (errors : List Nat) : Nat :=
  (errors.filter (fun e => e = 0)).length

/-- The fixed list of repository specs cloned by `download_sdk` (armory.py
lines 332-340): remote identifier, local subpath, recursive flag. -/
def sdkRepoSpecs : List (String × String × Bool) :=
  [("armory3d/armory", "armory", false),
   ("armory3d/iron", "iron", false),
   ("armory3d/haxebullet", "lib/haxebullet", false),
   ("armory3d/haxerecast", "lib/haxerecast", false),
   ("armory3d/zui", "lib/zui", false),
   ("armory3d/armory_tools", "lib/armory_tools", false),
   ("armory3d/Kromx_bin", "Krom", false),
   ("armory3d/Kha", "Kha", true),
   ("armory3d/nodejs_bin/", "nodejs", false)]

/-- Externally visible actions of `download_sdk`, in program order. -/
inductive Ev where
  | reportError (msg : String)
  | reportInfo
  | makeDirs
  | chdir
  | probe
  | launchClone (spec : String × String × Bool)
deriving DecidableEq, Repr

/-- Whether an event is the launch of a clone task. -/
def Ev.isClone : Ev → Bool
  | Ev.launchClone _ => true
  | _ => false

/-- Embeds `download_sdk(self, context)` (armory.py lines 300-340) as the
sequence of externally visible actions plus a cancellation flag.  Inputs:
the configured SDK path, whether that path already exists on disk, and the
probe outcome consumed by `git_test`.  Mirrors the source order: empty-path
check, info report, `os.makedirs` when the path does not exist, `os.chdir`,
the git probe, then either the error report or the nine clone launches. -/
def download_sdk (sdk_path : String) (sdkPathExists : Bool)
    (probe : Option String) : List Ev × Bool :=
  if sdk_path = "" then
    ([Ev.reportError "Configure Armory SDK path first"], true)
  else
    let pre := [Ev.reportInfo]
      ++ (if sdkPathExists then [] else [Ev.makeDirs])
      ++ [Ev.chdir, Ev.probe]
    if git_test probe then
      (pre ++ sdkRepoSpecs.map Ev.launchClone, false)
    else
      (pre ++ [Ev.reportError "Git test failed"], true)

/-- Concrete filesystem holding one installed repository at sdk/armory,
containing a read-only file; used for concrete instantiations. -/
def fsOne : FS :=
  fun q => if q = "sdk/armory" then some [⟨true, 5⟩] else none

/-- Concrete filesystem holding only a (stale) backup at
sdk/armory_backup; used for concrete instantiations. -/
def fsBak : FS :=
  fun q => if q = "sdk/armory_backup" then some [⟨false, 3⟩] else none

/-- Concrete empty filesystem. -/
def fsEmpty : FS := fun _ => none

lemma countZeros_cons (e : Nat) (l : List Nat) :
    countZeros (e :: l) = (if e = 0 then 1 else 0) + countZeros l := by
  by_cases he : e = 0 <;> simp [countZeros, List.filter_cons, he, Nat.add_comm]

lemma countZeros_le_length (l : List Nat) : countZeros l ≤ l.length :=
  List.length_filter_le _ l

lemma runFrom_fst (total : Nat) (l : List Nat) : ∀ st : BatchState,
    (runFrom total st l).1 =
      ⟨st.repos_done + l.length, st.repos_updated + countZeros l⟩ := by
  induction l with
  | nil => intro st; simp [runFrom, countZeros]
  | cons e rest ih =>
    intro st
    by_cases he : e = 0 <;>
      simp only [runFrom, doneCb, ih, countZeros_cons, he, if_true, if_false,
        List.length_cons, BatchState.mk.injEq, if_pos, if_neg, ite_true,
        ite_false, not_false_iff] <;>
      constructor <;> omega

lemma runFrom_no_signal (total : Nat) (l : List Nat) : ∀ st : BatchState,
    st.repos_updated ≤ st.repos_done →
    st.repos_done + l.length < total →
    (runFrom total st l).2 = [] := by
  induction l with
  | nil => intro st _ _; rfl
  | cons e rest ih =>
    intro st hud hlt
    simp only [List.length_cons] at hlt
    have hu : (if e = 0 then st.repos_updated + 1 else st.repos_updated)
        ≠ total := by
      by_cases he : e = 0 <;> simp [he] <;> omega
    have hd : st.repos_done + 1 ≠ total := by omega
    have htail := ih ⟨st.repos_done + 1,
        if e = 0 then st.repos_updated + 1 else st.repos_updated⟩
      (by by_cases he : e = 0 <;> simp [he] <;> omega)
      (by simp; omega)
    simp only [runFrom, doneCb, hu, hd, if_neg, Option.toList_none,
      List.nil_append]
    exact htail

lemma runFrom_final_signal (total : Nat) (l : List Nat) : ∀ st : BatchState,
    l ≠ [] →
    st.repos_updated ≤ st.repos_done →
    st.repos_done + l.length = total →
    (runFrom total st l).2 =
      [if st.repos_updated + countZeros l = total then Signal.allSucceeded
       else Signal.failed] := by
  induction l with
  | nil => intro st h _ _; exact absurd rfl h
  | cons e rest ih =>
    intro st _ hud hsum
    simp only [List.length_cons] at hsum
    by_cases hrest : rest = []
    · subst hrest
      simp only [List.length_nil] at hsum
      have hd : st.repos_done + 1 = total := by omega
      by_cases he : e = 0
      · by_cases hterm : st.repos_updated + 1 = total <;>
          simp [runFrom, doneCb, he, hd, hterm, countZeros_cons, countZeros,
            Nat.add_comm]
      · have hu : st.repos_updated ≠ total := by omega
        simp [runFrom, doneCb, he, hd, hu, countZeros_cons, countZeros]
    · have hlen : 1 ≤ rest.length := by
        cases rest with
        | nil => exact absurd rfl hrest
        | cons a t => simp
      have hu : (if e = 0 then st.repos_updated + 1 else st.repos_updated)
          ≠ total := by
        by_cases he : e = 0 <;> simp [he] <;> omega
      have hd : st.repos_done + 1 ≠ total := by omega
      have htail := ih ⟨st.repos_done + 1,
          if e = 0 then st.repos_updated + 1 else st.repos_updated⟩ hrest
        (by by_cases he : e = 0 <;> simp [he] <;> omega)
        (by simp; omega)
      by_cases he : e = 0 <;>
        simp only [he, if_true, if_false, ite_true, ite_false] at htail hu <;>
        simp [runFrom, doneCb, hu, hd, he, htail, countZeros_cons,
          Nat.add_comm, Nat.add_assoc, Nat.add_left_comm]

/-- C1: for a batch of `repos_total = 9` repository specs, exactly one
aggregate signal is emitted, exactly once: the success signal iff
`repos_updated` equals the total when the batch completes, the failure
signal iff all callbacks ran with fewer successes; never both, and no
signal is emitted while fewer than 9 callbacks have run. -/
theorem aggregate_signal_policy (errors : List Nat)
    (hlen : errors.length = repos_total)
    (hvals : ∀ e ∈ errors, e = 0 ∨ e = 1) :
    (runBatch errors).2.length = 1 ∧
    ((runBatch errors).2 = [Signal.allSucceeded] ↔
       (runBatch errors).1.repos_updated = repos_total) ∧
    ((runBatch errors).2 = [Signal.failed] ↔
       (runBatch errors).1.repos_updated < repos_total) ∧
    ¬((runBatch errors).2 = [Signal.allSucceeded] ∧
      (runBatch errors).2 = [Signal.failed]) ∧
    (∀ k, k < repos_total → (runBatch (errors.take k)).2 = []) := by
  have hne : errors ≠ [] := by
    intro h
    rw [h] at hlen
    simp [repos_total] at hlen
  have h2 : (runBatch errors).2 =
      [if countZeros errors = repos_total then Signal.allSucceeded
       else Signal.failed] := by
    have hfin := runFrom_final_signal repos_total errors ⟨0, 0⟩ hne
      (Nat.le_refl 0) (by simpa using hlen)
    simpa [runBatch] using hfin
  have h1 : (runBatch errors).1.repos_updated = countZeros errors := by
    rw [runBatch, runFrom_fst]
    simp
  have hle : countZeros errors ≤ repos_total := by
    have := countZeros_le_length errors
    omega
  refine ⟨?_, ?_, ?_, ?_, ?_⟩
  · rw [h2]
    simp
  · rw [h2, h1]
    by_cases hc : countZeros errors = repos_total <;> simp [hc]
  · rw [h2, h1]
    by_cases hc : countZeros errors = repos_total <;> simp [hc] <;> omega
  · rw [h2]
    by_cases hc : countZeros errors = repos_total <;> simp [hc]
  · intro k hk
    have htk : (errors.take k).length = k := by
      rw [List.length_take, hlen]
      omega
    refine runFrom_no_signal repos_total (errors.take k) ⟨0, 0⟩
      (Nat.le_refl 0) ?_
    simp only [htk]
    omega

/-- Witness for C1 at a concrete batch with one failing callback. -/
theorem aggregate_signal_policy_witness :
    (runBatch [0, 0, 0, 0, 0, 0, 0, 0, 1]).2.length = 1 ∧
    (runBatch ([0, 0, 0, 0, 0, 0, 0, 0, 1].take 4)).2 = [] := by
  have h := aggregate_signal_policy [0, 0, 0, 0, 0, 0, 0, 0, 1]
    (by decide) (by decide)
  exact ⟨h.1, h.2.2.2.2 4 (by decide)⟩

/-- C3: after any number k of completion callbacks of a 9-spec batch,
`repos_done` equals k (it starts at 0 and is incremented exactly once per
callback), `repos_updated` never exceeds `repos_done`, and `repos_done`
never exceeds `repos_total`. -/
theorem counters_invariant (errors : List Nat) (k : Nat)
    (hlen : errors.length = repos_total) (hk : k ≤ repos_total) :
    (runBatch (errors.take k)).1.repos_done = k ∧
    (runBatch (errors.take k)).1.repos_updated ≤
      (runBatch (errors.take k)).1.repos_done ∧
    (runBatch (errors.take k)).1.repos_done ≤ repos_total := by
  have htk : (errors.take k).length = k := by
    rw [List.length_take, hlen]
    omega
  have hcz := countZeros_le_length (errors.take k)
  rw [runBatch, runFrom_fst]
  simp only [htk, Nat.zero_add] at hcz ⊢
  exact ⟨trivial, hcz, hk⟩

/-- Witness for C3 after five callbacks of a concrete batch. -/
theorem counters_invariant_witness :
    (runBatch ([0, 1, 0, 1, 0, 1, 0, 1, 0].take 5)).1.repos_done = 5 ∧
    (runBatch ([0, 1, 0, 1, 0, 1, 0, 1, 0].take 5)).1.repos_updated ≤
      (runBatch ([0, 1, 0, 1, 0, 1, 0, 1, 0].take 5)).1.repos_done ∧
    (runBatch ([0, 1, 0, 1, 0, 1, 0, 1, 0].take 5)).1.repos_done ≤
      repos_total :=
  counters_invariant [0, 1, 0, 1, 0, 1, 0, 1, 0] 5 (by decide) (by decide)

/-- C4: `run_proc` invokes a supplied `done` callback exactly once — with
error code 1 iff spawning raised (the exception is caught inside
`run_proc`), and with error code 0 otherwise once the process exits,
whatever the exit code was — and in a batch each call's outcome is a
function of its own spawn result alone, so one spawn failure never aborts
or cancels a sibling clone task. -/
theorem run_proc_callback_exactly_once (spawn : SpawnResult) :
    (run_proc true spawn).doneCalls.length = 1 ∧
    ((run_proc true spawn).doneCalls = [1] ↔ spawn.raises = true) ∧
    ((run_proc true spawn).doneCalls = [0] ↔
      ∃ code, spawn = SpawnResult.ok code) ∧
    (∀ code, run_proc true (SpawnResult.ok code) = ⟨[0], true⟩) ∧
    (∀ spawns : List SpawnResult, ∀ i : Nat,
      (run_proc_batch spawns)[i]? = (spawns[i]?).map (run_proc true)) := by
  refine ⟨?_, ?_, ?_, ?_, ?_⟩
  · cases spawn <;> simp [run_proc]
  · cases spawn <;> simp [run_proc, SpawnResult.raises]
  · cases spawn <;> simp [run_proc]
  · intro code
    rfl
  · intro spawns i
    simp [run_proc_batch]

lemma url_head (g : String) :
    ("https://github.com/" ++ g).data.head? = some 'h' := by
  rw [String.data_append]
  rfl

lemma flag_ne_url (g f : String) (hf : f.data.head? ≠ some 'h') :
    f ≠ "https://github.com/" ++ g := by
  intro h
  apply hf
  rw [h]
  exact url_head g

lemma slash_mem_path (p n : String) : '/' ∈ (p ++ "/" ++ n).data := by
  rw [String.data_append, String.data_append]
  exact List.mem_append.2 (Or.inl (List.mem_append.2 (Or.inr (by decide))))

lemma flag_ne_path (p n f : String) (hf : '/' ∉ f.data) :
    f ≠ p ++ "/" ++ n := by
  intro h
  subst h
  exact hf (slash_mem_path p n)

/-- C9: for every repository spec the clone command contains the remote
URL built from the fixed host plus the remote identifier, the destination
path and the shallow-depth flag; the recursive variant additionally
contains the recursive, shallow-submodules and parallel-jobs flags, and
the non-recursive variant contains none of those three. -/
theorem clone_command_structure (gitn p n : String) :
    ("https://github.com/" ++ gitn) ∈ git_clone_cmd gitn (p ++ "/" ++ n) false ∧
    (p ++ "/" ++ n) ∈ git_clone_cmd gitn (p ++ "/" ++ n) false ∧
    "--depth" ∈ git_clone_cmd gitn (p ++ "/" ++ n) false ∧
    "1" ∈ git_clone_cmd gitn (p ++ "/" ++ n) false ∧
    ("https://github.com/" ++ gitn) ∈ git_clone_cmd gitn (p ++ "/" ++ n) true ∧
    (p ++ "/" ++ n) ∈ git_clone_cmd gitn (p ++ "/" ++ n) true ∧
    "--depth" ∈ git_clone_cmd gitn (p ++ "/" ++ n) true ∧
    "1" ∈ git_clone_cmd gitn (p ++ "/" ++ n) true ∧
    "--recursive" ∈ git_clone_cmd gitn (p ++ "/" ++ n) true ∧
    "--shallow-submodules" ∈ git_clone_cmd gitn (p ++ "/" ++ n) true ∧
    "--jobs" ∈ git_clone_cmd gitn (p ++ "/" ++ n) true ∧
    "--recursive" ∉ git_clone_cmd gitn (p ++ "/" ++ n) false ∧
    "--shallow-submodules" ∉ git_clone_cmd gitn (p ++ "/" ++ n) false ∧
    "--jobs" ∉ git_clone_cmd gitn (p ++ "/" ++ n) false := by
  refine ⟨by simp [git_clone_cmd], by simp [git_clone_cmd],
    by simp [git_clone_cmd], by simp [git_clone_cmd],
    by simp [git_clone_cmd], by simp [git_clone_cmd],
    by simp [git_clone_cmd], by simp [git_clone_cmd],
    by simp [git_clone_cmd], by simp [git_clone_cmd],
    by simp [git_clone_cmd], ?_, ?_, ?_⟩ <;>
  · simp only [git_clone_cmd, if_neg, Bool.false_eq_true, not_false_iff,
      ite_false, List.mem_cons, List.mem_singleton, not_or]
    refine ⟨by decide, by decide, ?_, ?_, by decide, by decide, by simp⟩
    · exact flag_ne_url gitn _ (by decide)
    · exact flag_ne_path p n _ (by decide)

/-- C2: with a configured SDK path, a failing git probe makes
`download_sdk` cancel with the tool error and launch zero clone tasks,
while a succeeding probe (for instance output "git version 2.34.1") lets
the batch of nine clone launches proceed. -/
theorem probe_gates_batch (sdk_path : String) (sdkPathExists : Bool)
    (probe : Option String) (hpath : sdk_path ≠ "") :
    (git_test probe = false →
      (download_sdk sdk_path sdkPathExists probe).2 = true ∧
      (download_sdk sdk_path sdkPathExists probe).1.filter Ev.isClone = [] ∧
      Ev.reportError "Git test failed" ∈
        (download_sdk sdk_path sdkPathExists probe).1) ∧
    (git_test probe = true →
      (download_sdk sdk_path sdkPathExists probe).2 = false ∧
      (download_sdk sdk_path sdkPathExists probe).1.filter Ev.isClone =
        sdkRepoSpecs.map Ev.launchClone) ∧
    git_test (some "git version 2.34.1") = true ∧
    git_test (some "") = false ∧
    git_test none = false := by
  refine ⟨?_, ?_, by decide, by decide, rfl⟩
  · intro hg
    cases sdkPathExists <;>
      simp [download_sdk, hpath, hg, sdkRepoSpecs, Ev.isClone, List.filter]
  · intro hg
    cases sdkPathExists <;>
      simp [download_sdk, hpath, hg, sdkRepoSpecs, Ev.isClone, List.filter]

/-- Witness for C2: a configured path with a healthy probe output is not
cancelled; the same probe output passes `git_test`. -/
theorem probe_gates_batch_witness :
    git_test (some "git version 2.34.1") = true ∧
    (download_sdk "sdk" true (some "git version 2.34.1")).2 = false := by
  have h := probe_gates_batch "sdk" true (some "git version 2.34.1")
    (by decide)
  exact ⟨h.2.2.1, (h.2.1 h.2.2.1).1⟩

/-- C10: with an empty SDK path `download_sdk` only reports a
configuration error (no directory creation, no probe, no clone); with a
configured path that does not exist yet, it creates the directory and
changes into it before probing, so a failed probe cancels but the freshly
created directory remains; when the path already exists nothing is
created. -/
theorem sdk_path_side_effects (sdk_path : String) (sdkPathExists : Bool)
    (probe : Option String) (hpath : sdk_path ≠ "") :
    (∀ ex pr, download_sdk "" ex pr =
      ([Ev.reportError "Configure Armory SDK path first"], true)) ∧
    (sdkPathExists = false →
      ∃ rest, (download_sdk sdk_path sdkPathExists probe).1 =
        Ev.reportInfo :: Ev.makeDirs :: Ev.chdir :: Ev.probe :: rest) ∧
    (sdkPathExists = false → git_test probe = false →
      (download_sdk sdk_path sdkPathExists probe).2 = true ∧
      Ev.makeDirs ∈ (download_sdk sdk_path sdkPathExists probe).1) ∧
    (sdkPathExists = true →
      Ev.makeDirs ∉ (download_sdk sdk_path sdkPathExists probe).1) := by
  refine ⟨fun ex pr => by simp [download_sdk], ?_, ?_, ?_⟩
  · intro hex
    subst hex
    by_cases hg : git_test probe
    · exact ⟨sdkRepoSpecs.map Ev.launchClone,
        by simp [download_sdk, hpath, hg]⟩
    · exact ⟨[Ev.reportError "Git test failed"],
        by simp [download_sdk, hpath, hg]⟩
  · intro hex hg
    subst hex
    simp [download_sdk, hpath, hg]
  · intro hex
    subst hex
    by_cases hg : git_test probe <;>
      simp [download_sdk, hpath, hg, sdkRepoSpecs]

/-- Witness for C10: a nonexistent configured path with a failing probe is
cancelled while the directory-creation step did run. -/
theorem sdk_path_side_effects_witness :
    (download_sdk "sdk" false none).2 = true ∧
    Ev.makeDirs ∈ (download_sdk "sdk" false none).1 := by
  have h := sdk_path_side_effects "sdk" false none (by decide)
  exact h.2.2.1 rfl rfl

lemma path_ne_backup (s : String) : s ≠ s ++ "_backup" := by
  intro h
  have hlen := congrArg String.length h
  rw [String.length_append] at hlen
  have h7 : "_backup".length = 7 := rfl
  omega

lemma rmtree_files_onerror_ok (files : List FileEnt) :
    rmtree_files (some remove_readonly) files = Except.ok () := by
  induction files with
  | nil => rfl
  | cons f rest ih =>
    by_cases hro : f.ro <;>
      simp [rmtree_files, os_remove, remove_readonly, hro, ih]

lemma rmtree_files_plain_error (files : List FileEnt)
    (h : ∃ f ∈ files, f.ro = true) :
    rmtree_files none files = Except.error () := by
  induction files with
  | nil => simp at h
  | cons f rest ih =>
    by_cases hro : f.ro = true
    · simp [rmtree_files, os_remove, hro]
    · have hrest : ∃ g ∈ rest, g.ro = true := by
        obtain ⟨g, hg, hgro⟩ := h
        rcases List.mem_cons.mp hg with hg1 | hg2
        · exact absurd (hg1 ▸ hgro) hro
        · exact ⟨g, hg2, hgro⟩
      simp [rmtree_files, os_remove, hro, ih hrest]


lemma isSome_false_eq_none (o : Option (List FileEnt))
    (h : o.isSome = false) : o = none := by
  cases o with
  | none => rfl
  | some v => simp at h

lemma git_clone_prep_rename (fs : FS) (p n : String)
    (hex : pathExists fs (p ++ "/" ++ n) = true)
    (hbak : pathExists fs (p ++ "/" ++ n ++ "_backup") = false) :
    git_clone_prep fs p n =
      os_rename fs (p ++ "/" ++ n) (p ++ "/" ++ n ++ "_backup") := by
  have hpb := path_ne_backup (p ++ "/" ++ n)
  have hbak2 : fs (p ++ "/" ++ n ++ "_backup") = none :=
    isSome_false_eq_none _ hbak
  rw [pathExists] at hex
  simp [git_clone_prep, os_rename, pathExists, hex, hbak2, hpb]

lemma git_clone_prep_delete (fs : FS) (p n : String)
    (hex : pathExists fs (p ++ "/" ++ n) = true)
    (hbak : pathExists fs (p ++ "/" ++ n ++ "_backup") = true) :
    git_clone_prep fs p n = shutil_rmtree fs (p ++ "/" ++ n) := by
  rw [pathExists] at hex hbak
  simp [git_clone_prep, pathExists, hex, hbak]

lemma git_clone_prep_skip (fs : FS) (p n : String)
    (hex : pathExists fs (p ++ "/" ++ n) = false) :
    git_clone_prep fs p n = fs := by
  rw [pathExists] at hex
  simp [git_clone_prep, pathExists, hex]

/-- C5: before launching the clone, `git_clone` renames an existing target
that has no backup yet to the `_backup` path; when a copy still remains at
the target after that step (only possible when the backup already existed)
it is deleted recursively; paths other than the target and its backup are
untouched; and deletion with the `remove_readonly` handler succeeds on
every directory, even where handler-free deletion would raise a permission
error on a read-only file. -/
theorem clone_backup_then_delete (fs : FS) (p n : String) :
    (pathExists fs (p ++ "/" ++ n) = true →
     pathExists fs (p ++ "/" ++ n ++ "_backup") = false →
       git_clone_prep fs p n (p ++ "/" ++ n ++ "_backup") =
         fs (p ++ "/" ++ n) ∧
       git_clone_prep fs p n (p ++ "/" ++ n) = none) ∧
    (pathExists fs (p ++ "/" ++ n) = true →
     pathExists fs (p ++ "/" ++ n ++ "_backup") = true →
       git_clone_prep fs p n (p ++ "/" ++ n) = none ∧
       git_clone_prep fs p n (p ++ "/" ++ n ++ "_backup") =
         fs (p ++ "/" ++ n ++ "_backup")) ∧
    (pathExists fs (p ++ "/" ++ n) = false →
       git_clone_prep fs p n = fs) ∧
    (∀ q, q ≠ p ++ "/" ++ n → q ≠ p ++ "/" ++ n ++ "_backup" →
       git_clone_prep fs p n q = fs q) ∧
    (∀ files : List FileEnt,
       rmtree_files (some remove_readonly) files = Except.ok ()) ∧
    (∀ files : List FileEnt, (∃ f ∈ files, f.ro = true) →
       rmtree_files none files = Except.error ()) := by
  have hpb := path_ne_backup (p ++ "/" ++ n)
  refine ⟨?_, ?_, git_clone_prep_skip fs p n, ?_,
    rmtree_files_onerror_ok, rmtree_files_plain_error⟩
  · intro hex hbak
    rw [git_clone_prep_rename fs p n hex hbak]
    constructor <;> simp [os_rename, hpb]
  · intro hex hbak
    rw [git_clone_prep_delete fs p n hex hbak]
    constructor <;> simp [shutil_rmtree, Ne.symm hpb]
  · intro q hq hqb
    rcases Bool.eq_false_or_eq_true (pathExists fs (p ++ "/" ++ n)) with
      hex | hex
    · rcases Bool.eq_false_or_eq_true
        (pathExists fs (p ++ "/" ++ n ++ "_backup")) with hbak | hbak
      · rw [git_clone_prep_delete fs p n hex hbak]
        simp [shutil_rmtree, hq]
      · rw [git_clone_prep_rename fs p n hex hbak]
        simp [os_rename, hq, hqb]
    · rw [git_clone_prep_skip fs p n hex]

/-- Witness for C5 on a concrete filesystem with an installed target, no
backup, and one read-only file inside the target. -/
theorem clone_backup_then_delete_witness :
    git_clone_prep fsOne "sdk" "armory" ("sdk" ++ "/" ++ "armory" ++ "_backup") =
      fsOne ("sdk" ++ "/" ++ "armory") ∧
    git_clone_prep fsOne "sdk" "armory" ("sdk" ++ "/" ++ "armory") = none ∧
    rmtree_files (some remove_readonly) [⟨true, 5⟩] = Except.ok () ∧
    rmtree_files none [⟨true, 5⟩] = Except.error () := by
  have h := clone_backup_then_delete fsOne "sdk" "armory"
  have h1 := h.1 (by decide) (by decide)
  exact ⟨h1.1, h1.2, h.2.2.2.2.1 [⟨true, 5⟩],
    h.2.2.2.2.2 [⟨true, 5⟩] ⟨⟨true, 5⟩, by decide, rfl⟩⟩

lemma restore_repo_noop (fs : FS) (p n : String)
    (h : pathExists fs (p ++ "/" ++ n ++ "_backup") = false) :
    restore_repo fs p n = fs := by
  simp [restore_repo, h]

lemma restore_all_noop (fs : FS) (p : String) (names : List String)
    (h : ∀ m ∈ names, pathExists fs (p ++ "/" ++ m ++ "_backup") = false) :
    restore_all fs p names = fs := by
  induction names with
  | nil => rfl
  | cons m rest ih =>
    have h1 := restore_repo_noop fs p m (h m (List.mem_cons_self m rest))
    have h2 : restore_all fs p (m :: rest) = restore_all fs p rest := by
      rw [restore_all, List.foldl_cons, h1]
      rfl
    rw [h2]
    exact ih fun x hx => h x (List.mem_cons_of_mem m hx)

/-- C6: when a backup exists, `restore_repo` deletes any current copy at
the target and renames the backup to the target (so the target afterwards
holds the backup contents, the backup path is empty, and every other path
is untouched); when no backup exists it is a no-op, and a whole restore
pass over paths with no backups leaves the filesystem unchanged. -/
theorem restore_semantics (fs : FS) (p n : String) :
    (pathExists fs (p ++ "/" ++ n ++ "_backup") = true →
       restore_repo fs p n (p ++ "/" ++ n) =
         fs (p ++ "/" ++ n ++ "_backup") ∧
       restore_repo fs p n (p ++ "/" ++ n ++ "_backup") = none ∧
       (∀ q, q ≠ p ++ "/" ++ n → q ≠ p ++ "/" ++ n ++ "_backup" →
          restore_repo fs p n q = fs q)) ∧
    (pathExists fs (p ++ "/" ++ n ++ "_backup") = false →
       restore_repo fs p n = fs) ∧
    (∀ names : List String,
       (∀ m ∈ names, pathExists fs (p ++ "/" ++ m ++ "_backup") = false) →
       restore_all fs p names = fs) := by
  have hpb := path_ne_backup (p ++ "/" ++ n)
  refine ⟨?_, restore_repo_noop fs p n, restore_all_noop fs p⟩
  intro hbak
  rw [pathExists] at hbak
  refine ⟨?_, ?_, ?_⟩
  · by_cases hex : (fs (p ++ "/" ++ n)).isSome = true <;>
      simp [restore_repo, pathExists, os_rename, shutil_rmtree, hbak, hex,
        Ne.symm hpb]
  · by_cases hex : (fs (p ++ "/" ++ n)).isSome = true <;>
      simp [restore_repo, pathExists, os_rename, shutil_rmtree, hbak, hex,
        hpb, Ne.symm hpb]
  · intro q hq hqb
    by_cases hex : (fs (p ++ "/" ++ n)).isSome = true <;>
      simp [restore_repo, pathExists, os_rename, shutil_rmtree, hbak, hex,
        hq, hqb]

/-- Witness for C6 on concrete filesystems: restoring with only a backup
present moves it back, and restoring when nothing is backed up changes
nothing. -/
theorem restore_semantics_witness :
    restore_repo fsBak "sdk" "armory" ("sdk" ++ "/" ++ "armory") =
      fsBak ("sdk" ++ "/" ++ "armory" ++ "_backup") ∧
    restore_repo fsBak "sdk" "armory" ("sdk" ++ "/" ++ "armory" ++ "_backup") =
      none ∧
    restore_repo fsEmpty "sdk" "armory" = fsEmpty ∧
    restore_all fsEmpty "sdk" ["armory", "iron"] = fsEmpty := by
  have hb := (restore_semantics fsBak "sdk" "armory").1 (by decide)
  have he := restore_semantics fsEmpty "sdk" "armory"
  exact ⟨hb.1, hb.2.1, he.2.1 (by decide),
    he.2.2 ["armory", "iron"] (by decide)⟩

lemma git_clone_success_fresh (fs : FS) (p n : String) (cl : List FileEnt)
    (hP : fs (p ++ "/" ++ n) = none) :
    git_clone_success fs p n cl =
      fun q => if q = p ++ "/" ++ n then some cl else fs q := by
  have hskip := git_clone_prep_skip fs p n (by simp [pathExists, hP])
  funext q
  simp [git_clone_success, hskip]

lemma git_clone_success_over (fs : FS) (p n : String) (cl1 cl2 : List FileEnt)
    (hB : fs (p ++ "/" ++ n ++ "_backup") = none) :
    git_clone_success (fun q => if q = p ++ "/" ++ n then some cl1 else fs q)
        p n cl2 =
      fun q => if q = p ++ "/" ++ n then some cl2
        else if q = p ++ "/" ++ n ++ "_backup" then some cl1 else fs q := by
  have hpb := path_ne_backup (p ++ "/" ++ n)
  have hprep := git_clone_prep_rename
    (fun q => if q = p ++ "/" ++ n then some cl1 else fs q) p n
    (by simp [pathExists])
    (by simp [pathExists, Ne.symm hpb, hB])
  funext q
  by_cases hq : q = p ++ "/" ++ n
  · simp [git_clone_success, hq]
  · by_cases hqb : q = p ++ "/" ++ n ++ "_backup"
    · simp [git_clone_success, hprep, os_rename, hq, hqb, Ne.symm hpb]
    · simp [git_clone_success, hprep, os_rename, hq, hqb]

lemma restore_repo_over (fs : FS) (p n : String) (cl1 cl2 : List FileEnt)
    (hB : fs (p ++ "/" ++ n ++ "_backup") = none) :
    restore_repo (fun q => if q = p ++ "/" ++ n then some cl2
        else if q = p ++ "/" ++ n ++ "_backup" then some cl1 else fs q) p n =
      fun q => if q = p ++ "/" ++ n then some cl1 else fs q := by
  have hpb := path_ne_backup (p ++ "/" ++ n)
  funext q
  by_cases hq : q = p ++ "/" ++ n
  · simp [restore_repo, pathExists, os_rename, shutil_rmtree, hq,
      Ne.symm hpb]
  · by_cases hqb : q = p ++ "/" ++ n ++ "_backup"
    · simp [restore_repo, pathExists, os_rename, shutil_rmtree, hq, hqb,
        Ne.symm hpb, hB]
    · simp [restore_repo, pathExists, os_rename, shutil_rmtree, hq, hqb,
        Ne.symm hpb]

/-- Counterexample to C7 as stated: the claim only assumes nothing
pre-exists at the target path P.  With a stale backup already present at
P_backup, fetching twice and restoring leaves the stale backup contents at
P, not the contents of the first clone. -/
theorem roundtrip_counterexample :
    fsBak ("sdk" ++ "/" ++ "armory") = none ∧
    restore_repo (git_clone_success (git_clone_success fsBak "sdk" "armory"
          [⟨false, 1⟩]) "sdk" "armory" [⟨false, 2⟩]) "sdk" "armory"
        ("sdk" ++ "/" ++ "armory") ≠ some [⟨false, 1⟩] := by
  constructor
  · decide
  · decide

/-- C7 amended: for any repository and path with no pre-existing directory
at the target path AND none at its backup path, fetch, fetch again,
restore returns the filesystem to the state after the first fetch: the
target holds exactly the first clone contents and no backup path remains. -/
theorem roundtrip_restore (fs : FS) (p n : String) (cl1 cl2 : List FileEnt)
    (hP : fs (p ++ "/" ++ n) = none)
    (hB : fs (p ++ "/" ++ n ++ "_backup") = none) :
    restore_repo (git_clone_success (git_clone_success fs p n cl1) p n cl2)
        p n = git_clone_success fs p n cl1 ∧
    restore_repo (git_clone_success (git_clone_success fs p n cl1) p n cl2)
        p n (p ++ "/" ++ n) = some cl1 ∧
    restore_repo (git_clone_success (git_clone_success fs p n cl1) p n cl2)
        p n (p ++ "/" ++ n ++ "_backup") = none := by
  have hpb := path_ne_backup (p ++ "/" ++ n)
  have h1 := git_clone_success_fresh fs p n cl1 hP
  have hmain : restore_repo (git_clone_success (git_clone_success fs p n cl1)
      p n cl2) p n = git_clone_success fs p n cl1 := by
    rw [h1, git_clone_success_over fs p n cl1 cl2 hB,
      restore_repo_over fs p n cl1 cl2 hB, ← h1]
  refine ⟨hmain, ?_, ?_⟩
  · rw [hmain, h1]
    simp
  · rw [hmain, h1]
    simp [Ne.symm hpb, hB]

/-- Witness for C7 (amended) on the empty filesystem. -/
theorem roundtrip_restore_witness :
    restore_repo (git_clone_success (git_clone_success fsEmpty "sdk" "armory"
          [⟨false, 1⟩]) "sdk" "armory" [⟨false, 2⟩]) "sdk" "armory" =
      git_clone_success fsEmpty "sdk" "armory" [⟨false, 1⟩] ∧
    restore_repo (git_clone_success (git_clone_success fsEmpty "sdk" "armory"
          [⟨false, 1⟩]) "sdk" "armory" [⟨false, 2⟩]) "sdk" "armory"
        ("sdk" ++ "/" ++ "armory") = some [⟨false, 1⟩] ∧
    restore_repo (git_clone_success (git_clone_success fsEmpty "sdk" "armory"
          [⟨false, 1⟩]) "sdk" "armory" [⟨false, 2⟩]) "sdk" "armory"
        ("sdk" ++ "/" ++ "armory" ++ "_backup") = none :=
  roundtrip_restore fsEmpty "sdk" "armory" [⟨false, 1⟩] [⟨false, 2⟩] rfl rfl

lemma matchLit_some (l : List Char) : ∀ s t : List Char,
    matchLit l s = some t ↔ s = l ++ t := by
  induction l with
  | nil =>
    intro s t
    simp [matchLit]
  | cons a l ih =>
    intro s t
    cases s with
    | nil => simp [matchLit]
    | cons c s2 =>
      by_cases hac : a = c
      · subst hac
        simp [matchLit, ih]
      · simp [matchLit, hac]
        intro h
        exact absurd h.symm hac

lemma matchLitThen_iff (l : List Char) (k : List Char → Bool)
    (s : List Char) :
    matchLitThen l k s = true ↔ ∃ t, s = l ++ t ∧ k t = true := by
  unfold matchLitThen
  cases hml : matchLit l s with
  | none =>
    constructor
    · intro h
      exact absurd h (by simp)
    · rintro ⟨t, ht, hk⟩
      have hcontra := (matchLit_some l s t).mpr ht
      rw [hml] at hcontra
      cases hcontra
  | some t0 =>
    have hs := (matchLit_some l s t0).mp hml
    constructor
    · intro hk
      exact ⟨t0, hs, hk⟩
    · rintro ⟨t, ht, hk⟩
      have heq : l ++ t = l ++ t0 := by rw [← ht, hs]
      have ht0 : t = t0 := List.append_cancel_left heq
      rw [← ht0]
      exact hk

lemma matchAnyThen_iff (k : List Char → Bool) (s : List Char) :
    matchAnyThen k s = true ↔
      ∃ c t, s = c :: t ∧ c ≠ '\n' ∧ k t = true := by
  cases s with
  | nil => simp [matchAnyThen]
  | cons c t =>
    simp only [matchAnyThen, Bool.and_eq_true, decide_eq_true_eq,
      List.cons.injEq]
    constructor
    · rintro ⟨hc, hk⟩
      exact ⟨c, t, ⟨rfl, rfl⟩, hc, hk⟩
    · rintro ⟨c2, t2, ⟨hc2, ht2⟩, hcn, hk⟩
      subst hc2
      subst ht2
      exact ⟨hcn, hk⟩

lemma matchDigitsThen_iff (k : List Char → Bool) : ∀ s : List Char,
    matchDigitsThen k s = true ↔
      ∃ d t, s = d ++ t ∧ d ≠ [] ∧ (∀ c ∈ d, c.isDigit = true) ∧
        k t = true := by
  intro s
  induction s with
  | nil =>
    constructor
    · intro h
      cases h
    · rintro ⟨d, t, hdt, hne, _, _⟩
      rcases List.append_eq_nil.mp hdt.symm with ⟨hd, _⟩
      exact absurd hd hne
  | cons c s2 ih =>
    constructor
    · intro h
      simp [matchDigitsThen] at h
      obtain ⟨hd, hrest⟩ := h
      rcases hrest with hk | hm
      · exact ⟨[c], s2, rfl, by simp, by simp [hd], hk⟩
      · obtain ⟨d2, t2, hs2, hne2, hdig2, hk2⟩ := ih.mp hm
        refine ⟨c :: d2, t2, by simp [hs2], by simp, ?_, hk2⟩
        intro x hx
        rcases List.mem_cons.mp hx with h1 | h2
        · rw [h1]
          exact hd
        · exact hdig2 x h2
    · rintro ⟨d, t, hdt, hne, hdig, hk⟩
      cases d with
      | nil => exact absurd rfl hne
      | cons a d2 =>
        rw [List.cons_append] at hdt
        injection hdt with hac hs2
        subst hac
        have hcd : c.isDigit = true := hdig c (List.mem_cons_self _ _)
        simp [matchDigitsThen, hcd]
        cases d2 with
        | nil =>
          simp at hs2
          left
          rw [hs2]
          exact hk
        | cons b d3 =>
          right
          exact ih.mpr ⟨b :: d3, t, hs2, by simp,
            fun x hx => hdig x (List.mem_cons_of_mem _ hx), hk⟩

lemma gitVersionRegexMatch_iff (s : List Char) :
    gitVersionRegexMatch s = true ↔ looseVersionShape s := by
  unfold gitVersionRegexMatch looseVersionShape
  rw [matchLitThen_iff]
  constructor
  · rintro ⟨t1, hs, h1⟩
    rw [matchDigitsThen_iff] at h1
    obtain ⟨d1, t2, ht1, hne1, hdig1, h2⟩ := h1
    rw [matchAnyThen_iff] at h2
    obtain ⟨c1, t3, ht2, hc1, h3⟩ := h2
    rw [matchDigitsThen_iff] at h3
    obtain ⟨d2, t4, ht3, hne2, hdig2, h4⟩ := h3
    rw [matchAnyThen_iff] at h4
    obtain ⟨c2, t5, ht4, hc2, h5⟩ := h4
    rw [matchDigitsThen_iff] at h5
    obtain ⟨d3, t6, ht5, hne3, hdig3, _⟩ := h5
    refine ⟨d1, c1, d2, c2, d3, t6, ?_, hne1, hdig1, hc1, hne2, hdig2, hc2,
      hne3, hdig3⟩
    subst hs ht1 ht2 ht3 ht4 ht5
    simp [List.append_assoc, List.cons_append]
  · rintro ⟨d1, c1, d2, c2, d3, rest, hs, hne1, hdig1, hc1, hne2, hdig2,
      hc2, hne3, hdig3⟩
    refine ⟨d1 ++ (c1 :: (d2 ++ (c2 :: (d3 ++ rest)))),
      by rw [hs]; simp [List.append_assoc, List.cons_append], ?_⟩
    rw [matchDigitsThen_iff]
    refine ⟨d1, c1 :: (d2 ++ (c2 :: (d3 ++ rest))), rfl, hne1, hdig1, ?_⟩
    rw [matchAnyThen_iff]
    refine ⟨c1, d2 ++ (c2 :: (d3 ++ rest)), rfl, hc1, ?_⟩
    rw [matchDigitsThen_iff]
    refine ⟨d2, c2 :: (d3 ++ rest), rfl, hne2, hdig2, ?_⟩
    rw [matchAnyThen_iff]
    refine ⟨c2, d3 ++ rest, rfl, hc2, ?_⟩
    rw [matchDigitsThen_iff]
    exact ⟨d3, rest, rfl, hne3, hdig3, rfl⟩

lemma dotted_implies_code_match (s : List Char)
    (h : dottedVersionMatch s = true) : gitVersionRegexMatch s = true := by
  unfold dottedVersionMatch at h
  rw [matchLitThen_iff] at h
  obtain ⟨t1, hs, h1⟩ := h
  rw [matchDigitsThen_iff] at h1
  obtain ⟨d1, t2, ht1, hne1, hdig1, h2⟩ := h1
  rw [matchLitThen_iff] at h2
  obtain ⟨t3, ht2, h3⟩ := h2
  rw [matchDigitsThen_iff] at h3
  obtain ⟨d2, t4, ht3, hne2, hdig2, h4⟩ := h3
  rw [matchLitThen_iff] at h4
  obtain ⟨t5, ht4, h5⟩ := h4
  rw [matchDigitsThen_iff] at h5
  obtain ⟨d3, t6, ht5, hne3, hdig3, _⟩ := h5
  rw [gitVersionRegexMatch_iff]
  refine ⟨d1, '.', d2, '.', d3, t6, ?_, hne1, hdig1, by decide, hne2, hdig2,
    by decide, hne3, hdig3⟩
  subst hs ht1 ht2 ht3 ht4 ht5
  simp [List.append_assoc, List.cons_append]

/-- Counterexample to C8 as stated: because the separator dots in the
source pattern are unescaped regex metacharacters, the output
"git version 1a2b3" — whose digit groups are separated by letters, not
dots — makes git_test return true, although it does not match the
digits-separated-by-dots pattern the claim describes. -/
theorem probe_pattern_counterexample :
    git_test (some "git version 1a2b3") = true ∧
    dottedVersionMatch "git version 1a2b3".toList = false := by
  constructor
  · decide
  · decide

/-- C8 amended: `git_test` returns true iff the version command could be
invoked and its decoded output starts with "git version " followed by a
digit group, one arbitrary non-newline character, a digit group, one
arbitrary non-newline character, and a digit group (the separators in the
source regex are unescaped dots, hence match any character, not only a
literal dot); every dotted version output is in particular accepted, and
any invocation error or non-matching output, including empty output,
yields false. -/
theorem probe_pattern (out : Option String) :
    (git_test out = true ↔
      ∃ s, out = some s ∧ looseVersionShape s.toList) ∧
    (∀ s : String, dottedVersionMatch s.toList = true →
      git_test (some s) = true) ∧
    git_test none = false ∧
    git_test (some "") = false := by
  refine ⟨?_, ?_, rfl, by decide⟩
  · cases out with
    | none =>
      constructor
      · intro h
        cases h
      · rintro ⟨s, hcontra, _⟩
        cases hcontra
    | some s =>
      rw [show git_test (some s) = gitVersionRegexMatch s.toList from rfl,
        gitVersionRegexMatch_iff]
      constructor
      · intro h
        exact ⟨s, rfl, h⟩
      · rintro ⟨s2, hss, hshape⟩
        injection hss with hss2
        rw [hss2]
        exact hshape
  · intro s hdot
    exact dotted_implies_code_match s.toList hdot

/-- Witness for C8 (amended): a healthy dotted output passes the probe and
a failed invocation does not. -/
theorem probe_pattern_witness :
    git_test (some "git version 2.34.1") = true ∧ git_test none = false := by
  have h := probe_pattern (some "git version 2.34.1")
  exact ⟨h.2.1 "git version 2.34.1" (by decide), h.2.2.1⟩
